import Mathlib

/-!
Verification development for the presto-go-client repository.

The definitions below are shallow embeddings of the Go source:
  * `src/presto/serial.go` (parameter serialization, `Serial` / `serialSlice`),
  * `src/presto/transaction.go` (`driverTx.Commit` / `driverTx.Rollback`,
    `verifyIsolationLevel`),
  * the row converter file (`rowConverter.ConvertValue`,
    `newComplexConverter`),
together with the parts of the Go standard library the source calls
(`strconv.ParseFloat` acceptance, `strings.Replace`) and, where the
repository code is not available, models written from the specification
(marked `Modelled from the spec:`).
-/

namespace PrestoGo

/-! ## Go standard library: `strconv.ParseFloat` acceptance

`Serial`'s `Numeric` branch calls `strconv.ParseFloat(string(x), 64)` and
propagates its error.  The definitions in this section embed exactly the
success/failure behaviour of Go's `ParseFloat` (strconv/atof.go and
strconv/atoi.go): the `special` Inf/NaN forms, the `readFloat` grammar for
decimal and hexadecimal mantissas with digit-separating underscores
(validated by `underscoreOK`), the whole-string requirement, and the range
error on overflow.  Go's conversion is correctly rounded, so a
syntactically valid number overflows (`ErrRange`) exactly when its exact
magnitude is at least `2^1024 - 2^970`, the halfway point above the
largest finite `float64` (ties round to the even `2^1024`).  Underflow to
zero or to a subnormal is not an error in Go's decimal and hex paths. -/

/-- Error kinds of Go's `strconv.NumError` as produced by `ParseFloat`:
`ErrSyntax` ("invalid syntax") and `ErrRange` ("value out of range"). -/
inductive NumErrorKind where
  | invalidSyntax
  | outOfRange
deriving DecidableEq, Repr

/-- Go's `lower(c byte) byte { return c | ('x' - 'X') }`: sets the ASCII
lower-case bit.  On non-ASCII code points no result ever equals an ASCII
letter, matching the byte-level behaviour of the Go original. -/
def lowerChar (c : Char) : Nat :=
  c.toNat ||| 0x20

/-- Decimal digit test on a character, as Go's parsers do byte-wise. -/
def isDigitChar (c : Char) : Bool :=
  48 ≤ c.toNat && c.toNat ≤ 57

/-- Hexadecimal digit test (`0-9`, `a-f`, `A-F`). -/
def isHexChar (c : Char) : Bool :=
  isDigitChar c || (97 ≤ lowerChar c && lowerChar c ≤ 102)

/-- Numeric value of a (possibly hexadecimal) digit character. -/
def digitVal (c : Char) : Nat :=
  if isDigitChar c then c.toNat - 48 else lowerChar c - 97 + 10

/-- Character classes tracked by Go's `underscoreOK` (strconv/atoi.go):
start-of-number/reset, base-prefix, underscore, digit. -/
inductive USaw where
  | begin
  | baseMark
  | uscore
  | digit
deriving DecidableEq

/-- Loop of Go's `underscoreOK`: a digit always resets the class to
`digit`; an underscore is legal only directly after a digit or the base
prefix; any other character resets the class and must not directly follow
an underscore; the string must not end in an underscore. -/
def underscoreOKLoop (hex : Bool) : USaw → List Char → Bool
  | saw, [] => saw ≠ .uscore
  | saw, c :: rest =>
    if isDigitChar c || (hex && 97 ≤ lowerChar c && lowerChar c ≤ 102) then
      underscoreOKLoop hex .digit rest
    else if c = '_' then
      if saw ≠ .baseMark && saw ≠ .digit then false
      else underscoreOKLoop hex .uscore rest
    else if saw = .uscore then false
    else underscoreOKLoop hex .begin rest

/-- Go's `underscoreOK(s)`: underscores may appear only between digits or
between a base prefix and a digit.  An optional sign is skipped; an
optional `0b`/`0o`/`0x` prefix counts as a digit for the purpose of a
following underscore. -/
def underscoreOK (s : List Char) : Bool :=
  let s1 := match s with
    | c :: rest => if c = '-' || c = '+' then rest else s
    | [] => s
  match s1 with
  | c0 :: c1 :: rest =>
    if c0 = '0' && (lowerChar c1 = 98 || lowerChar c1 = 111 || lowerChar c1 = 120) then
      underscoreOKLoop (lowerChar c1 = 120) .baseMark rest
    else
      underscoreOKLoop false .begin s1
  | _ => underscoreOKLoop false .begin s1

/-- Length of the common case-insensitive prefix of `s` and `pat`, as Go's
`commonPrefixLenIgnoreCase` (the pattern is lower-case). -/
def ciPrefixLen : List Char → List Char → Nat
  | _, [] => 0
  | [], _ => 0
  | c :: cs, p :: ps =>
    if lowerChar c = p.toNat then 1 + ciPrefixLen cs ps else 0

/-- Go's `special(s)`: the number of characters consumed when `s` begins
with a (possibly signed) case-insensitive `inf`/`infinity`, or an unsigned
case-insensitive `nan`; `none` when no special form matches.  A common
prefix of `infinity` of length 4–7 consumes only `inf`. -/
def specialConsumed (s : List Char) : Option Nat :=
  match s with
  | [] => none
  | c :: rest =>
    if c = '+' || c = '-' then
      let n := ciPrefixLen rest ['i', 'n', 'f', 'i', 'n', 'i', 't', 'y']
      let n := if 3 ≤ n && n < 8 then 3 else n
      if n = 3 || n = 8 then some (1 + n) else none
    else if lowerChar c = 105 then
      let n := ciPrefixLen (c :: rest) ['i', 'n', 'f', 'i', 'n', 'i', 't', 'y']
      let n := if 3 ≤ n && n < 8 then 3 else n
      if n = 3 || n = 8 then some n else none
    else if lowerChar c = 110 then
      if ciPrefixLen (c :: rest) ['n', 'a', 'n'] = 3 then some 3 else none
    else none

/-- State of the mantissa scan of Go's `readFloat`: accumulated digits as
a number, count of digits after the radix point, whether a point, a digit
and an underscore have been seen. -/
structure MantScan where
  mant : Nat
  frac : Nat
  sawdot : Bool
  sawdig : Bool
  us : Bool
deriving Repr

/-- Mantissa loop of `readFloat`: consume digits of the given base, at
most one radix point, and skip underscores (recording that one was
seen); stop at the first other character.  Returns the state and the
unconsumed remainder. -/
def mantLoop (base : Nat) (hex : Bool) : MantScan → List Char → MantScan × List Char
  | st, [] => (st, [])
  | st, c :: rest =>
    if c = '_' then
      mantLoop base hex { st with us := true } rest
    else if c = '.' then
      if st.sawdot then (st, c :: rest)
      else mantLoop base hex { st with sawdot := true } rest
    else if isDigitChar c || (hex && isHexChar c) then
      mantLoop base hex
        { st with
          mant := st.mant * base + digitVal c
          frac := if st.sawdot then st.frac + 1 else st.frac
          sawdig := true } rest
    else (st, c :: rest)

/-- Exponent digit loop of `readFloat`: decimal digits with interspersed
underscores (the flag records whether one was seen); stops at the first
other character. -/
def expLoop : Nat × Bool → List Char → (Nat × Bool) × List Char
  | eu, [] => (eu, [])
  | (e, u), c :: rest =>
    if c = '_' then expLoop (e, true) rest
    else if isDigitChar c then expLoop (e * 10 + digitVal c, u) rest
    else ((e, u), c :: rest)

/-- Result of a successful whole-string `readFloat`: the exact parsed
magnitude is `mant * 10 ^ exp` for decimal and `mant * 2 ^ exp` for
hexadecimal input (`exp` already accounts for fractional digits). -/
structure FloatParse where
  mant : Nat
  exp : Int
  hex : Bool
deriving Repr

/-- Skipping of the optional leading sign, common to `readFloat`, the
`underscoreOK` preamble and any reading of "an optional sign followed by
a number". -/
def stripSign (s : List Char) : List Char :=
  match s with
  | c :: rest => if c = '+' || c = '-' then rest else s
  | [] => s

/-- `readFloat`'s detection of a hexadecimal mantissa: a `0x`/`0X`
prefix with at least one further character behind it. -/
def hexDetect (afterSign : List Char) : Bool :=
  match afterSign with
  | c0 :: c1 :: _ :: _ => c0 = '0' && lowerChar c1 = 120
  | _ => false

/-- Exponent part of `readFloat`, applied to the remainder after the
mantissa: an optional `e`/`p` exponent with an optional sign and at
least one digit directly after it (mandatory for hex), the remainder
empty, and — when an underscore was scanned — the `underscoreOK` check
on the whole consumed text `s`. -/
def readFloatExp (s : List Char) (st : MantScan) (hex : Bool) :
    List Char → Option FloatParse
  | c :: rest1 =>
    if lowerChar c = (if hex then 112 else 101) then
      let (esign, rest2) : Int × List Char := match rest1 with
        | e :: more =>
          if e = '+' then (1, more) else if e = '-' then (-1, more) else (1, rest1)
        | [] => (1, rest1)
      match rest2 with
      | d :: _ =>
        if !isDigitChar d then none
        else
          match expLoop (0, false) rest2 with
          | ((e, eu), rest3) =>
            if rest3 ≠ [] then none
            else if (st.us || eu) && !underscoreOK s then none
            else
              let scale : Int := if hex then 4 * (st.frac : Int) else (st.frac : Int)
              some ⟨st.mant, esign * (e : Int) - scale, hex⟩
      | [] => none
    else none
  | [] =>
    if hex then none
    else if st.us && !underscoreOK s then none
    else some ⟨st.mant, -(st.frac : Int), false⟩

/-- Whole-string `readFloat` of Go (strconv/atof.go): optional sign,
optional `0x` prefix (requiring at least one further character), a
mantissa with at least one digit and at most one radix point, then the
exponent part (`readFloatExp`).  `none` exactly when Go's `ParseFloat`
reports `ErrSyntax` for a non-special string: either `readFloat` fails
or it consumes a strict prefix. -/
def readFloatFull (s : List Char) : Option FloatParse :=
  match mantLoop (if hexDetect (stripSign s) then 16 else 10) (hexDetect (stripSign s))
      ⟨0, 0, false, false, false⟩
      (if hexDetect (stripSign s) then (stripSign s).drop 2 else stripSign s) with
  | (st, rest) =>
    if !st.sawdig then none else readFloatExp s st (hexDetect (stripSign s)) rest

/-- Overflow threshold of `float64`: the halfway point `2^1024 - 2^970 =
2^970 * (2^54 - 1)` between the largest finite value and `2^1024`;
correctly rounded conversion yields infinity exactly at or above it. -/
def floatOverflowBound : Nat := 2 ^ 970 * (2 ^ 54 - 1)

/-- Number of base-`b` digits of `m` (`⌊log_b m⌋ + 1` for `m > 0`),
computed with structural fuel so that it reduces inside the kernel. -/
def digitCount (b : Nat) (m : Nat) : Nat :=
  go m m
where
  go : Nat → Nat → Nat
    | 0, _ => 0
    | fuel + 1, m => if m = 0 then 0 else go fuel (m / b) + 1

/-- Whether a magnitude `m * b ^ e` (with `b = 10` or `b = 2`) reaches the
`float64` overflow threshold.  Wide of the boundary the verdict follows
from digit counts alone, so astronomically large or small exponents never
force the computation of a huge power. -/
def overflowsAt (b : Nat) (boundLog : Int) (m : Nat) (e : Int) : Bool :=
  if m = 0 then false
  else
    let nd : Int := (digitCount b m : Int)
    if boundLog + 1 ≤ nd + e then true
    else if nd + e ≤ boundLog - 1 then false
    else if 0 ≤ e then decide (floatOverflowBound ≤ m * b ^ e.toNat)
    else decide (floatOverflowBound * b ^ (-e).toNat ≤ m)

/-- Overflow verdict for a parsed float: base 10 with `10^308 <
bound < 10^309`, base 2 with `2^1023 < bound < 2^1024`. -/
def overflowFP (fp : FloatParse) : Bool :=
  if fp.hex then overflowsAt 2 1024 fp.mant fp.exp
  else overflowsAt 10 309 fp.mant fp.exp

/-- Success/failure behaviour of Go's `strconv.ParseFloat(s, 64)`:
`none` on success, otherwise the `NumError` kind.  A special Inf/NaN form
must span the whole string; otherwise the string must be a whole-string
`readFloat` parse, which fails with `ErrRange` when its exact value
overflows `float64`. -/
def parseFloat64Check (s : String) : Option NumErrorKind :=
  let cs := s.data
  match specialConsumed cs with
  | some n => if n = cs.length then none else some .invalidSyntax
  | none =>
    match readFloatFull cs with
    | none => some .invalidSyntax
    | some fp => if overflowFP fp then some .outOfRange else none

/-! ## Go standard library: string helpers used by `serial.go` -/

/-- Decimal rendering of a natural number, as Go's `strconv.Itoa`,
`FormatInt` and `FormatUint` produce for non-negative values. -/
def natToDecimal (n : Nat) : String :=
  Nat.repr n

/-- Decimal rendering of an integer, as Go's `strconv.Itoa` and
`FormatInt(x, 10)`. -/
def intToDecimal (n : Int) : String :=
  if n < 0 then "-" ++ Nat.repr n.natAbs else Nat.repr n.natAbs

/-- Leftmost non-overlapping replacement on character lists, embedding
Go's `strings.Replace(s, old, new, -1)` for a non-empty pattern: at each
position, if the pattern is a prefix it is replaced and skipped, else one
character is kept. -/
def goReplaceChars (old new : List Char) : List Char → List Char
  | [] => []
  | c :: rest =>
    if h : old ≠ [] ∧ old.isPrefixOf (c :: rest) then
      new ++ goReplaceChars old new ((c :: rest).drop old.length)
    else
      c :: goReplaceChars old new rest
termination_by s => s.length
decreasing_by
  · have hlen : 0 < old.length := List.length_pos.mpr h.1
    simp only [List.length_drop, List.length_cons]
    omega
  · simp

/-- Go's `strings.Replace(s, old, new, -1)` on strings (non-empty
pattern). -/
def goReplace (s old new : String) : String :=
  String.mk (goReplaceChars old.data new.data s.data)

/-- Escaping of one character inside Go's `strconv.Quote`: exact for
ASCII (backslash escapes, `\x` codes for non-printables); code points at
and above `0x80` are kept verbatim, which matches Go for printable runes
and is the only regime the development evaluates. -/
def goQuoteChar (c : Char) : List Char :=
  if c = '"' then ['\\', '"']
  else if c = '\\' then ['\\', '\\']
  else if 0x20 ≤ c.toNat && c.toNat ≤ 0x7e then [c]
  else if 0x80 ≤ c.toNat then [c]
  else if c.toNat = 7 then ['\\', 'a']
  else if c.toNat = 8 then ['\\', 'b']
  else if c.toNat = 12 then ['\\', 'f']
  else if c.toNat = 10 then ['\\', 'n']
  else if c.toNat = 13 then ['\\', 'r']
  else if c.toNat = 9 then ['\\', 't']
  else if c.toNat = 11 then ['\\', 'v']
  else
    let hexDigit : Nat → Char := fun d =>
      if d < 10 then Char.ofNat (48 + d) else Char.ofNat (87 + d)
    ['\\', 'x', hexDigit (c.toNat / 16), hexDigit (c.toNat % 16)]

/-- Go's `strconv.Quote`: a double-quoted string with escapes. -/
def goQuote (s : String) : String :=
  String.mk ('"' :: s.data.flatMap goQuoteChar ++ ['"'])

/-! ## `src/presto/serial.go`: parameter serialization

`Serial` converts one caller-supplied Go value into a Presto SQL literal.
`GoValue` reflects the dynamic types distinguished by the type switch in
the source; the numeric constructors carry the number, the unsupported
kinds carry nothing because the source ignores their payloads. -/

/-- Dynamic Go values distinguished by `Serial`'s type switch and the
reflection fallback in `src/presto/serial.go`.  `sliceNil` is a typed nil
slice reaching the reflection branch; `sliceVal` is a non-nil slice with
its elements; `other` is any value of an unlisted type, carrying the
`%T`-formatted type name. -/
inductive GoValue where
  | goNil
  | i8 (n : Int)
  | i16 (n : Int)
  | i32 (n : Int)
  | iv (n : Int)
  | u16 (n : Nat)
  | i64 (n : Int)
  | u32 (n : Nat)
  | uv (n : Nat)
  | u64 (n : Nat)
  | f32
  | f64
  | numeric (s : String)
  | byteVal (n : Nat)
  | boolVal (b : Bool)
  | strVal (s : String)
  | bytesVal
  | timeVal
  | durationVal
  | rawJSON
  | sliceVal (elems : List GoValue)
  | sliceNil
  | mapVal
  | other (typeName : String)
deriving Repr

/-- Errors returned by `Serial`: `UnsupportedArgError{t}` from
`serial.go`, or the `strconv.NumError` propagated unchanged from
`ParseFloat` by the `Numeric` branch. -/
inductive SerialError where
  | unsupported (t : String)
  | numericParse (s : String) (k : NumErrorKind)
deriving DecidableEq, Repr

/-- Message of a `Serial` error: `UnsupportedArgError.Error()` formats
`"presto: unsupported arg type: %s"`; a `strconv.NumError` formats
`"strconv.ParseFloat: parsing %q: %s"`. -/
def SerialError.message : SerialError → String
  | .unsupported t => "presto: unsupported arg type: " ++ t
  | .numericParse s k =>
    "strconv.ParseFloat: parsing " ++ goQuote s ++ ": " ++
      (match k with
        | .invalidSyntax => "invalid syntax"
        | .outOfRange => "value out of range")

mutual

/-- Embedding of `Serial` from `src/presto/serial.go`: one branch per
case of the source's type switch, then the reflection fallbacks for
slices, maps, and everything else.  The slice branch writes out the body
of `serialSlice` (the standalone `serialSliceGo` below agrees with it
definitionally) so that the recursion stays structural. -/
def Serial : GoValue → Except SerialError String
  | .goNil => .error (.unsupported "<nil>")
  | .i8 n => .ok (intToDecimal n)
  | .i16 n => .ok (intToDecimal n)
  | .i32 n => .ok (intToDecimal n)
  | .iv n => .ok (intToDecimal n)
  | .u16 n => .ok (natToDecimal n)
  | .i64 n => .ok (intToDecimal n)
  | .u32 n => .ok (natToDecimal n)
  | .uv n => .ok (natToDecimal n)
  | .u64 n => .ok (natToDecimal n)
  | .f32 => .error (.unsupported "float32")
  | .f64 => .error (.unsupported "float64")
  | .numeric s =>
    match parseFloat64Check s with
    | some k => .error (.numericParse s k)
    | none => .ok s
  | .byteVal _ => .error (.unsupported "byte/uint8")
  | .boolVal b => .ok (if b then "true" else "false")
  | .strVal s => .ok ("'" ++ goReplace s "'" "''" ++ "'")
  | .bytesVal => .error (.unsupported "[]byte")
  | .timeVal => .error (.unsupported "time.Time")
  | .durationVal => .error (.unsupported "time.Duration")
  | .rawJSON => .error (.unsupported "json.RawMessage")
  | .sliceVal elems =>
    (match serialElems elems with
      | .error e => .error e
      | .ok ss => .ok ("ARRAY[" ++ String.intercalate ", " ss ++ "]"))
  | .sliceNil => .error (.unsupported "[]<nil>")
  | .mapVal => .error (.unsupported "map")
  | .other typeName => .error (.unsupported typeName)
termination_by structural v => v

/-- The element loop of `serialSlice`: the serializations in order, or
the first element's error. -/
def serialElems : List GoValue → Except SerialError (List String)
  | [] => .ok []
  | v :: vs =>
    match Serial v with
    | .error e => .error e
    | .ok s =>
      match serialElems vs with
      | .error e => .error e
      | .ok ss => .ok (s :: ss)
termination_by structural l => l

end

/-- Embedding of `serialSlice`: serialize every element, abort on the
first error, join with `", "` inside `ARRAY[...]`.  `Serial` on a
non-nil slice is definitionally this function on its elements. -/
def serialSliceGo (vs : List GoValue) : Except SerialError String :=
  match serialElems vs with
  | .error e => .error e
  | .ok ss => .ok ("ARRAY[" ++ String.intercalate ", " ss ++ "]")

/-! ## `src/presto/transaction.go`: transaction controller

`driverTx` holds a connection pointer that is set to nil after a
successful `COMMIT`/`ROLLBACK`; a nil pointer makes both methods return
`driver.ErrBadConn` without issuing a statement.  The embedding keeps the
pointer's nil-ness, abstracts the network outcome of the statement as a
parameter, and records the list of statements issued. -/

/-- The `driverTx` object: `conn` is the nil-ness of its connection
pointer (`true` = non-nil). -/
structure DriverTx where
  conn : Bool
deriving DecidableEq, Repr

/-- Errors surfaced by `driverTx.Commit`/`Rollback`: the driver
framework's `driver.ErrBadConn`, or the error of the `COMMIT`/`ROLLBACK`
query itself. -/
inductive TxError where
  | badConn
  | queryFailed (msg : String)
deriving DecidableEq, Repr

/-- Embedding of `driverTx.Commit`: with a nil connection return
`driver.ErrBadConn` and issue nothing; otherwise run the `COMMIT`
statement (`outcome` abstracts `stmt.QueryContext`), propagate its error,
and clear the connection pointer only on success.  The third component
lists the statements issued. -/
def txCommit (t : DriverTx) (outcome : Except String Unit) :
    Except TxError Unit × DriverTx × List String :=
  if t.conn then
    match outcome with
    | .error e => (.error (.queryFailed e), t, ["COMMIT"])
    | .ok _ => (.ok (), ⟨false⟩, ["COMMIT"])
  else (.error .badConn, t, [])

/-- Embedding of `driverTx.Rollback`, identical to `Commit` with the
`ROLLBACK` statement. -/
def txRollback (t : DriverTx) (outcome : Except String Unit) :
    Except TxError Unit × DriverTx × List String :=
  if t.conn then
    match outcome with
    | .error e => (.error (.queryFailed e), t, ["ROLLBACK"])
    | .ok _ => (.ok (), ⟨false⟩, ["ROLLBACK"])
  else (.error .badConn, t, [])

/-- The `database/sql` isolation levels, by their integer values:
`LevelDefault = 0`, `LevelReadUncommitted = 1`, `LevelReadCommitted = 2`,
`LevelWriteCommitted = 3`, `LevelRepeatableRead = 4`, `LevelSnapshot =
5`, `LevelSerializable = 6`, `LevelLinearizable = 7`. -/
def levelDefault : Int := 0

/-- `sql.LevelReadUncommitted`. -/
def levelReadUncommitted : Int := 1

/-- `sql.LevelReadCommitted`. -/
def levelReadCommitted : Int := 2

/-- `sql.LevelWriteCommitted`. -/
def levelWriteCommitted : Int := 3

/-- `sql.LevelRepeatableRead`. -/
def levelRepeatableRead : Int := 4

/-- `sql.LevelSnapshot`. -/
def levelSnapshot : Int := 5

/-- `sql.LevelSerializable`. -/
def levelSerializable : Int := 6

/-- `sql.LevelLinearizable`. -/
def levelLinearizable : Int := 7

/-- `sql.IsolationLevel.String()` from `database/sql`, used by the `%v`
verb in `verifyIsolationLevel`'s error. -/
def isolationLevelString (l : Int) : String :=
  if l = 0 then "Default"
  else if l = 1 then "Read Uncommitted"
  else if l = 2 then "Read Committed"
  else if l = 3 then "Write Committed"
  else if l = 4 then "Repeatable Read"
  else if l = 5 then "Snapshot"
  else if l = 6 then "Serializable"
  else if l = 7 then "Linearizable"
  else "IsolationLevel(" ++ intToDecimal l ++ ")"

/-- Embedding of `verifyIsolationLevel` from `src/presto/transaction.go`:
the switch accepts `LevelRepeatableRead`, `LevelReadCommitted`,
`LevelReadUncommitted` and `LevelSerializable`; every other level falls
to the default branch and errors. -/
def verifyIsolationLevel (level : Int) : Except String Unit :=
  if level = levelRepeatableRead || level = levelReadCommitted ||
      level = levelReadUncommitted || level = levelSerializable then
    .ok ()
  else
    .error ("presto: unsupported isolation level: " ++ isolationLevelString level)

/-- Modelled from the spec: the `Begin(isolation, readOnly)` entry point
(§4.6/§4.7) lives in the driver file that is not under `src/`; per the
spec it validates the isolation level first and fails before any network
call, otherwise it issues the single `START TRANSACTION` statement
assembled from the comma-joined `READ ONLY`/`READ WRITE` and
`ISOLATION LEVEL <token>` modifiers.  The second component is the list
of statements sent over the network. -/
def beginTx (level : Int) (readOnly : Bool) : Except String Unit × List String :=
  match verifyIsolationLevel level with
  | .error e => (.error e, [])
  | .ok _ =>
    (.ok (),
      ["START TRANSACTION " ++
        String.intercalate ", "
          [if readOnly then "READ ONLY" else "READ WRITE",
            "ISOLATION LEVEL " ++ isolationLevelString level]])

/-! ## Transaction header discipline (spec §4.4, §4.7)

Modelled from the spec: the connection code that attaches the
`X-Presto-Transaction-Id` request header and reacts to the
`X-Presto-Started-Transaction-Id` / `X-Presto-Clear-Transaction-Id`
response headers is in the driver file that is not under `src/`.  The
model keeps the connection's transaction header value (`none` = header
absent), sets it to the literal `NONE` when a `START TRANSACTION`
statement is issued, replaces it by the id of a `Started-Transaction-Id`
response header, and clears it on a `Cleared-Transaction-Id` response
header.  `src/presto/transaction_test.go` fixes this observable
behaviour request by request. -/

/-- One HTTP exchange as far as the transaction header protocol is
concerned: whether the request begins a `START TRANSACTION` statement,
and the transaction headers carried by the response. -/
structure TxExchange where
  isStartTransaction : Bool
  startedTxId : Option String
  clearedTx : Bool
deriving DecidableEq, Repr

/-- Modelled from the spec: the header value sent on one request given
the connection's transaction state — the recorded value, except that
issuing `START TRANSACTION` first sets the state to the literal
`NONE`. -/
def txHeaderSent (st : Option String) (e : TxExchange) : Option String :=
  if e.isStartTransaction then some "NONE" else st

/-- Modelled from the spec: the connection's transaction state after the
response of one exchange — a `Started-Transaction-Id` header records the
new id, a `Cleared-Transaction-Id` header returns the connection to
none, and the `Cleared` header wins when both are present. -/
def txStateAfter (st : Option String) (e : TxExchange) : Option String :=
  let st1 := if e.isStartTransaction then some "NONE" else st
  let st2 := match e.startedTxId with
    | some id => some id
    | none => st1
  if e.clearedTx then none else st2

/-- The transaction state after a whole sequence of exchanges. -/
def txStateRun (st : Option String) : List TxExchange → Option String
  | [] => st
  | e :: es => txStateRun (txStateAfter st e) es

/-- The `X-Presto-Transaction-Id` values sent on a sequence of exchanges,
in order. -/
def txHeadersSent (st : Option String) : List TxExchange → List (Option String)
  | [] => []
  | e :: es => txHeaderSent st e :: txHeadersSent (txStateAfter st e) es

/-- The eight HTTP exchanges of `TestTransactionCommit`
(`src/presto/transaction_test.go`): `START TRANSACTION` and its poll
(which returns `Started-Transaction-Id: 123`), a query and its poll,
`COMMIT` and its poll (which returns `Cleared-Transaction-Id`), and a
final query with its poll. -/
def txCommitTestTrace : List TxExchange :=
  [⟨true, none, false⟩,
    ⟨false, some "123", false⟩,
    ⟨false, none, false⟩,
    ⟨false, none, false⟩,
    ⟨false, none, false⟩,
    ⟨false, none, true⟩,
    ⟨false, none, false⟩,
    ⟨false, none, false⟩]

/-! ## Row converter (`rowConverter.ConvertValue`, `newComplexConverter`)

The wire values reaching a converter are decoded JSON: null, booleans,
numbers (`float64`), strings, sequences (`[]any`) and objects
(`map[string]any`).  A converted row is itself an object, modelled as the
association list of its entries in field order. -/

/-- Decoded JSON wire values and converter results. -/
inductive Value where
  | null
  | boolV (b : Bool)
  | numV (s : String)
  | strV (s : String)
  | seqV (vs : List Value)
  | objV (entries : List (String × Value))
deriving Repr

/-- The Go `%T` type name of a decoded JSON value, as printed by the
`rowConverter.ConvertValue` error for a non-sequence argument. -/
def Value.goTypeName : Value → String
  | .null => "<nil>"
  | .boolV _ => "bool"
  | .numV _ => "float64"
  | .strV _ => "string"
  | .seqV _ => "[]interface {}"
  | .objV _ => "map[string]interface {}"

/-- Whether a wire value is a sequence (a Go `[]any`). -/
def Value.isSeq : Value → Bool
  | .seqV _ => true
  | _ => false

/-- Errors of a conversion: an error value with its message, or the
run-time panic of an out-of-bounds index (which Go does not return but
raises). -/
inductive ConvError where
  | msg (s : String)
  | indexPanic
deriving DecidableEq, Repr

/-- Converters as built by `newComplexConverter`: `newTypeConverter`'s
scalar converter for every raw type other than `row`, and the
`rowConverter` with its parsed field names and sub-converters. -/
inductive Converter where
  | scalar (typeName : String)
  | row (fields : List String) (subs : List Converter)
deriving Repr

/-- Modelled from the spec: `newTypeConverter`'s scalar conversion
(§4.2) is in the driver file that is not under `src/`.  Per the spec a
null wire value converts to null without further checks; a non-null
value is checked against the raw type's accepted wire shape and passed
through (the development does not depend on the scalar result beyond its
non-nullness, so the date/time string-to-timestamp reshaping is left as
the identity); unknown raw types pass the value through unchanged. -/
def scalarConvert (typeName : String) : Value → Except ConvError Value
  | .null => .ok .null
  | v =>
    if typeName = "boolean" then
      match v with
      | .boolV b => .ok (.boolV b)
      | _ => .error (.msg ("presto: cannot convert " ++ v.goTypeName ++ " to " ++ typeName))
    else if typeName = "bigint" || typeName = "integer" || typeName = "smallint" ||
        typeName = "tinyint" || typeName = "double" || typeName = "real" then
      match v with
      | .numV s => .ok (.numV s)
      | _ => .error (.msg ("presto: cannot convert " ++ v.goTypeName ++ " to " ++ typeName))
    else if typeName = "varchar" || typeName = "char" || typeName = "date" ||
        typeName = "time" || typeName = "time with time zone" ||
        typeName = "timestamp" || typeName = "timestamp with time zone" then
      match v with
      | .strV s => .ok (.strV s)
      | _ => .error (.msg ("presto: cannot convert " ++ v.goTypeName ++ " to " ++ typeName))
    else if typeName = "map" then
      match v with
      | .objV es => .ok (.objV es)
      | _ => .error (.msg ("presto: cannot convert " ++ v.goTypeName ++ " to " ++ typeName))
    else if typeName = "array" then
      match v with
      | .seqV vs => .ok (.seqV vs)
      | _ => .error (.msg ("presto: cannot convert " ++ v.goTypeName ++ " to " ++ typeName))
    else .ok v

mutual

/-- Application of a converter to a wire value: scalar converters per the
spec model, row converters per `rowConverter.ConvertValue` in the source:
nil converts to nil; a non-sequence errors; a sequence must have exactly
as many elements as there are field names; then the field loop runs. -/
def applyConverter : Converter → Value → Except ConvError Value
  | .scalar t, v => scalarConvert t v
  | .row fields subs, v =>
    match v with
    | .null => .ok .null
    | .seqV vs =>
      if vs.length ≠ fields.length then
        .error (.msg ("presto: row converter has wrong number of elements: " ++
          natToDecimal vs.length ++ ", expected: " ++ natToDecimal fields.length))
      else
        match rowLoop fields subs vs with
        | .error e => .error e
        | .ok entries => .ok (.objV entries)
    | v' =>
      .error (.msg ("presto: row converter needs []any and received " ++ v'.goTypeName))
termination_by structural c v => v

/-- The field loop of `rowConverter.ConvertValue`: iterate the field
names against the wire elements (the caller has checked the lengths
match); a null wire element is skipped without consulting its
sub-converter, but still advances the sub-converter index; a non-null
element consults `c.converters[i]`, which panics when `i` is out of
bounds; a sub-converter error is wrapped and aborts; a non-null result
is appended under the field name and a null result is skipped. -/
def rowLoop : List String → List Converter → List Value → Except ConvError (List (String × Value))
  | [], _, _ => .ok []
  | _ :: fs, convs, .null :: vs => rowLoop fs (convs.drop 1) vs
  | f :: fs, convs, v :: vs =>
    match convs with
    | [] => .error .indexPanic
    | conv :: rest =>
      match applyConverter conv v with
      | .error (.msg e) => .error (.msg ("presto: converting sub property of row: " ++ e))
      | .error .indexPanic => .error .indexPanic
      | .ok sub =>
        match rowLoop fs rest vs with
        | .error e => .error e
        | .ok tail =>
          match sub with
          | .null => .ok tail
          | sub' => .ok ((f, sub') :: tail)
  | _ :: _, _, [] => .ok []
termination_by structural fs cs vs => vs

end

/-- A type signature as decoded from the wire (`typeSignature` in the
driver's wire schema): the raw type name, the `typeArguments` raw
messages (each either a decodable nested signature or malformed JSON
carrying its `json.Unmarshal` error message), and the
`literalArguments` raw messages (each either a decodable JSON string or
malformed). -/
inductive TypeSignature where
  | mk (rawType : String) (typeArguments : List (TypeSignature ⊕ String))
      (literalArguments : List (String ⊕ String))
deriving Repr

/-- Raw type name of a signature. -/
def TypeSignature.rawType : TypeSignature → String
  | .mk r _ _ => r

/-- Type arguments of a signature. -/
def TypeSignature.typeArguments : TypeSignature → List (TypeSignature ⊕ String)
  | .mk _ tas _ => tas

/-- Literal arguments of a signature. -/
def TypeSignature.literalArguments : TypeSignature → List (String ⊕ String)
  | .mk _ _ las => las

/-- The field-name loop of `newComplexConverter`. -/
def parseFieldNames : List (String ⊕ String) → Except ConvError (List String)
  | [] => .ok []
  | .inl fn :: rest =>
    match parseFieldNames rest with
    | .error e => .error e
    | .ok fs => .ok (fn :: fs)
  | .inr jsonErr :: _ =>
    .error (.msg ("presto: parsing field name for row converter: " ++ jsonErr))

mutual

/-- Embedding of `newComplexConverter`: every raw type other than `row`
yields `newTypeConverter(ts.RawType)`; for `row` the literal arguments
are parsed into the field names (a `json.Unmarshal` failure wraps its
message and aborts), then the type arguments are parsed and recursively
built into the sub-converters.  No comparison of the two counts is
made. -/
def newComplexConverter (ts : TypeSignature) : Except ConvError Converter :=
  match ts with
  | .mk rawType tas las =>
    if rawType ≠ "row" then .ok (.scalar rawType)
    else
      match parseFieldNames las with
      | .error e => .error e
      | .ok fields =>
        match buildSubConverters tas with
        | .error e => .error e
        | .ok subs => .ok (.row fields subs)
termination_by structural ts

/-- The sub-converter loop of `newComplexConverter`. -/
def buildSubConverters : List (TypeSignature ⊕ String) → Except ConvError (List Converter)
  | [] => .ok []
  | .inl fts :: rest =>
    match newComplexConverter fts with
    | .error e => .error (.msg ("presto: creating nested converted for row converter: " ++
        (match e with | .msg s => s | .indexPanic => "panic")))
    | .ok conv =>
      match buildSubConverters rest with
      | .error e => .error e
      | .ok convs => .ok (conv :: convs)
  | .inr jsonErr :: _ =>
    .error (.msg ("presto: parsing field type for row converter: " ++ jsonErr))
termination_by structural l => l

end

/-! ## Definitions following the words of the specification

These are not translations of the source; they restate what the spec (or
a claim) literally says, to be compared with the source embeddings
above. -/

/-- One or more decimal digits. -/
def decDigits1 : List Char → Option (List Char)
  | c :: rest =>
    if isDigitChar c then
      match decDigits1 rest with
      | some r => some r
      | none => some rest
    else none
  | [] => none

/-- Zero or more decimal digits. -/
def decDigits0 (s : List Char) : List Char :=
  match s with
  | c :: rest => if isDigitChar c then decDigits0 rest else s
  | [] => s

/-- Mantissa of the spec wording: digits with at most one decimal point
and at least one digit (`123`, `1.5`, `1.`, `.5`).  Returns the
remainder after the mantissa. -/
def specMant (cs : List Char) : Option (List Char) :=
  match decDigits1 cs with
  | some rest =>
    match rest with
    | c :: rest' => if c = '.' then some (decDigits0 rest') else some rest
    | [] => some rest
  | none =>
    match cs with
    | c :: rest' => if c = '.' then decDigits1 rest' else none
    | [] => none

/-- Exponent of the spec wording: nothing, or `e`/`E`, an optional sign
and one or more digits reaching the end of the string. -/
def specExp : List Char → Bool
  | [] => true
  | e :: rest' =>
    if e = 'e' || e = 'E' then
      let rest'' := match rest' with
        | c :: more => if c = '+' || c = '-' then more else rest'
        | [] => rest'
      match decDigits1 rest'' with
      | some [] => true
      | _ => false
    else false

/-- Spec wording of the `Numeric` rule: "the string parses as a
decimal/scientific floating-point number" — an optional sign, a mantissa
of digits with at most one decimal point and at least one digit, and an
optional exponent part `e`/`E`, optional sign, digits.  No other forms
are described. -/
def isDecimalOrScientific (s : String) : Bool :=
  match specMant (stripSign s.data) with
  | some rest => specExp rest
  | none => false

/-- Spec wording of the string rule: "wrapped in single quotes; embedded
single quotes doubled.  No other escaping." — every character other than
a single quote is kept as it is. -/
def stringLiteralSpec (s : String) : String :=
  String.mk ('\'' :: s.data.flatMap (fun c => if c = '\'' then ['\'', '\''] else [c]) ++ ['\''])

/-- Claim wording of the row conversion (C4): walking the fields, their
sub-converters and the wire elements in parallel, a null wire element is
omitted, a non-null element is converted by its own sub-converter (a
failure, wrapped as in the source, aborts the whole conversion) and the
field name is mapped to the sub-converter's result. -/
def specRowEntries : List (String × Converter × Value) → Except ConvError (List (String × Value))
  | [] => .ok []
  | (_, _, .null) :: rest => specRowEntries rest
  | (f, conv, v) :: rest =>
    match applyConverter conv v with
    | .error (.msg e) => .error (.msg ("presto: converting sub property of row: " ++ e))
    | .error .indexPanic => .error .indexPanic
    | .ok sub =>
      match specRowEntries rest with
      | .error e => .error e
      | .ok tail => .ok ((f, sub) :: tail)

/-! ## Theorems -/

/-- Replacing single quotes by doubled single quotes, as
`strings.Replace` does it position by position, is the same as mapping
every character independently: no surrounding character is touched. -/
theorem goReplaceChars_quote (cs : List Char) :
    goReplaceChars ['\''] ['\'', '\''] cs =
      cs.flatMap (fun c => if c = '\'' then ['\'', '\''] else [c]) := by
  induction cs with
  | nil => simp [goReplaceChars]
  | cons c rest ih =>
    by_cases hc : c = '\''
    · subst hc
      rw [goReplaceChars]
      simp only [List.isPrefixOf, List.flatMap_cons]
      rw [dif_pos (by simp [List.isPrefixOf])]
      simp [ih]
    · rw [goReplaceChars]
      rw [dif_neg (by intro hcontra
                      have h2 := hcontra.2
                      simp [List.isPrefixOf] at h2
                      exact hc h2.symm)]
      simp [hc, ih]

/-- C3: for every Go string `s`, `Serial(s)` succeeds and returns `s`
wrapped in single quotes with every embedded single quote doubled
(`"'" + strings.Replace(s, "'", "''", -1) + "'"`), which equals the
character-by-character mapping that doubles quotes and keeps every
other character: no other escaping or transformation is applied. -/
theorem serial_string_quotes (s : String) :
    Serial (.strVal s) = .ok ("'" ++ goReplace s "'" "''" ++ "'") ∧
    Serial (.strVal s) = .ok (stringLiteralSpec s) := by
  refine ⟨rfl, ?_⟩
  show Except.ok ("'" ++ goReplace s "'" "''" ++ "'") = _
  congr 1
  apply String.ext
  simp only [String.data_append, goReplace, stringLiteralSpec]
  show "'".data ++ goReplaceChars "'".data "''".data s.data ++ "'".data = _
  rw [show "'".data = ['\''] from rfl, show "''".data = ['\'', '\''] from rfl,
    goReplaceChars_quote]
  simp

/-- The element loop of `serialSlice` succeeds with exactly the
element-wise serializations. -/
theorem serialElems_ok (vs : List GoValue) (ss : List String)
    (h : List.Forall₂ (fun v s => Serial v = .ok s) vs ss) :
    serialElems vs = .ok ss := by
  induction h with
  | nil => rfl
  | cons hv _ ih =>
    rw [serialElems, hv, ih]

/-- The element loop of `serialSlice` propagates the first failing
element's error. -/
theorem serialElems_error (pre : List GoValue) (v : GoValue) (post : List GoValue)
    (e : SerialError) (hpre : ∀ u ∈ pre, ∃ s, Serial u = .ok s)
    (hv : Serial v = .error e) :
    serialElems (pre ++ v :: post) = .error e := by
  induction pre with
  | nil => rw [List.nil_append, serialElems, hv]
  | cons u rest ih =>
    obtain ⟨s, hs⟩ := hpre u (by simp)
    rw [List.cons_append, serialElems, hs,
      ih (fun u' hu' => hpre u' (by simp [hu']))]

/-- C5: a non-nil slice whose elements all serialize yields
`ARRAY[...]` of the serializations in order joined by `", "` (the empty
slice yields `ARRAY[]`); a nil slice is rejected with
`UnsupportedArg("[]<nil>")`; a failing element fails the whole slice
with precisely that element's error. -/
theorem serial_slice_claim :
    Serial .sliceNil = .error (.unsupported "[]<nil>") ∧
    (∀ (vs : List GoValue) (ss : List String),
      List.Forall₂ (fun v s => Serial v = .ok s) vs ss →
      Serial (.sliceVal vs) = .ok ("ARRAY[" ++ String.intercalate ", " ss ++ "]")) ∧
    (∀ (pre : List GoValue) (v : GoValue) (post : List GoValue) (e : SerialError),
      (∀ u ∈ pre, ∃ s, Serial u = .ok s) → Serial v = .error e →
      Serial (.sliceVal (pre ++ v :: post)) = .error e) := by
  refine ⟨rfl, ?_, ?_⟩
  · intro vs ss h
    show serialSliceGo vs = _
    rw [serialSliceGo, serialElems_ok vs ss h]
  · intro pre v post e hpre hv
    show serialSliceGo (pre ++ v :: post) = _
    rw [serialSliceGo, serialElems_error pre v post e hpre hv]

/-- Closed instance of C5: the two test vectors of the repository's
serializer test, and a failing element. -/
theorem serial_slice_claim_witness :
    Serial (.sliceVal [.iv 1, .iv 2]) = .ok "ARRAY[1, 2]" ∧
    Serial (.sliceVal []) = .ok "ARRAY[]" ∧
    Serial (.sliceVal [.iv 1, .byteVal 97]) = .error (.unsupported "byte/uint8") := by
  refine ⟨?_, ?_, ?_⟩
  · have h := serial_slice_claim.2.1 [.iv 1, .iv 2] ["1", "2"]
      (by constructor; · rfl
          constructor; · rfl
          constructor)
    simpa using h
  · have h := serial_slice_claim.2.1 [] [] List.Forall₂.nil
    simpa using h
  · have h := serial_slice_claim.2.2 [.iv 1] (.byteVal 97) [] (.unsupported "byte/uint8")
      (by intro u hu; simp at hu; subst hu; exact ⟨"1", rfl⟩) rfl
    simpa using h

/-- C6: after one successful `Commit` or `Rollback`, every subsequent
`Commit` or `Rollback` on the same transaction object issues no
statement and returns the driver framework's `driver.ErrBadConn`. -/
theorem tx_single_use (t : DriverTx) (o o' : Except String Unit) :
    ((txCommit t o).1 = .ok () →
      txCommit (txCommit t o).2.1 o' = (.error .badConn, (txCommit t o).2.1, []) ∧
      txRollback (txCommit t o).2.1 o' = (.error .badConn, (txCommit t o).2.1, [])) ∧
    ((txRollback t o).1 = .ok () →
      txCommit (txRollback t o).2.1 o' = (.error .badConn, (txRollback t o).2.1, []) ∧
      txRollback (txRollback t o).2.1 o' = (.error .badConn, (txRollback t o).2.1, [])) := by
  obtain ⟨c⟩ := t
  cases c <;> cases o <;> simp [txCommit, txRollback]

/-- Closed instance of C6: a committed transaction refuses a second
commit and a rollback without issuing a statement. -/
theorem tx_single_use_witness :
    txCommit (txCommit ⟨true⟩ (.ok ())).2.1 (.ok ()) =
      (.error .badConn, (txCommit ⟨true⟩ (.ok ())).2.1, []) ∧
    txRollback (txCommit ⟨true⟩ (.ok ())).2.1 (.ok ()) =
      (.error .badConn, (txCommit ⟨true⟩ (.ok ())).2.1, []) :=
  (tx_single_use ⟨true⟩ (.ok ()) (.ok ())).1 rfl

/-- C7: `verifyIsolationLevel` accepts exactly the four levels
repeatable read, read committed, read uncommitted and serializable, and
on every other level `Begin` fails with that error before issuing any
statement. -/
theorem begin_isolation_levels (level : Int) (readOnly : Bool) :
    (verifyIsolationLevel level = .ok () ↔
      level = levelRepeatableRead ∨ level = levelReadCommitted ∨
        level = levelReadUncommitted ∨ level = levelSerializable) ∧
    (verifyIsolationLevel level ≠ .ok () →
      ∃ e, verifyIsolationLevel level = .error e ∧
        beginTx level readOnly = (.error e, [])) := by
  constructor
  · rw [verifyIsolationLevel]
    by_cases h : level = levelRepeatableRead ∨ level = levelReadCommitted ∨
        level = levelReadUncommitted ∨ level = levelSerializable
    · simp only [levelRepeatableRead, levelReadCommitted, levelReadUncommitted,
        levelSerializable] at h
      rw [if_pos (by simp only [levelRepeatableRead, levelReadCommitted,
        levelReadUncommitted, levelSerializable]; simp; omega)]
      exact iff_of_true rfl h
    · simp only [levelRepeatableRead, levelReadCommitted, levelReadUncommitted,
        levelSerializable] at h
      push_neg at h
      rw [if_neg (by simp only [levelRepeatableRead, levelReadCommitted,
        levelReadUncommitted, levelSerializable]; simp; omega)]
      exact iff_of_false (fun hcontra => Except.noConfusion hcontra) (by tauto)
  · intro hno
    rw [beginTx]
    rw [verifyIsolationLevel] at hno ⊢
    by_cases h : (level = levelRepeatableRead || level = levelReadCommitted ||
        level = levelReadUncommitted || level = levelSerializable) = true
    · rw [if_pos h] at hno
      exact absurd rfl hno
    · rw [if_neg h]
      exact ⟨_, rfl, rfl⟩

/-- Closed instance of C7: `sql.LevelWriteCommitted` is refused and no
statement is issued. -/
theorem begin_isolation_levels_witness :
    ∃ e, verifyIsolationLevel levelWriteCommitted = .error e ∧
      beginTx levelWriteCommitted true = (.error e, []) :=
  (begin_isolation_levels levelWriteCommitted true).2
    (fun h => by
      rw [show verifyIsolationLevel levelWriteCommitted =
        .error "presto: unsupported isolation level: Write Committed" from rfl] at h
      exact Except.noConfusion h)

/-- C10: the framework's default isolation level (`LevelDefault = 0`) is
rejected like every level outside the accepted four, so a `Begin` that
does not explicitly pick one of the four fails (before any statement is
issued). -/
theorem begin_rejects_default_level (level : Int) (readOnly : Bool) :
    verifyIsolationLevel levelDefault =
      .error "presto: unsupported isolation level: Default" ∧
    (level ≠ levelRepeatableRead → level ≠ levelReadCommitted →
      level ≠ levelReadUncommitted → level ≠ levelSerializable →
      ∃ e, beginTx level readOnly = (.error e, [])) := by
  constructor
  · rfl
  · intro h1 h2 h3 h4
    simp only [levelRepeatableRead, levelReadCommitted, levelReadUncommitted,
      levelSerializable] at h1 h2 h3 h4
    rw [beginTx, verifyIsolationLevel]
    rw [if_neg (by simp only [levelRepeatableRead, levelReadCommitted,
      levelReadUncommitted, levelSerializable]; simp; omega)]
    exact ⟨_, rfl⟩

/-- Closed instance of C10: a plain `db.Begin()` passes `LevelDefault`,
which fails without issuing a statement. -/
theorem begin_rejects_default_level_witness :
    ∃ e, beginTx levelDefault false = (.error e, []) :=
  (begin_rejects_default_level levelDefault false).2
    (by simp [levelDefault, levelRepeatableRead])
    (by simp [levelDefault, levelReadCommitted])
    (by simp [levelDefault, levelReadUncommitted])
    (by simp [levelDefault, levelSerializable])

/-- C1: on any sequence of exchanges, the `X-Presto-Transaction-Id`
header sent on request N is determined by the transaction state after
the first N−1 exchanges (`NONE` from a `START TRANSACTION` until a
`Started-Transaction-Id` response is observed, the recorded id while
active, absent after a `Cleared-Transaction-Id` response); concretely,
the trace of `TestTransactionCommit` sends `NONE` on the first two
requests, the started id `123` on the next four (including `COMMIT` and
its poll), and no header on the last two. -/
theorem tx_header_discipline :
    (∀ (st : Option String) (pre : List TxExchange) (e : TxExchange)
        (post : List TxExchange),
      (txHeadersSent st (pre ++ e :: post)).get? pre.length =
        some (txHeaderSent (txStateRun st pre) e)) ∧
    txHeadersSent none txCommitTestTrace =
      [some "NONE", some "NONE", some "123", some "123", some "123",
        some "123", none, none] := by
  constructor
  · intro st pre e post
    induction pre generalizing st with
    | nil => rfl
    | cons p rest ih =>
      show (txHeadersSent _ (p :: (rest ++ e :: post))).get? (rest.length + 1) = _
      rw [txHeadersSent]
      rw [List.get?_cons_succ]
      exact ih (txStateAfter st p)
  · rfl

/-- Counterexample to C2 as stated: `Serial` rejects the non-parsing
`Numeric("not-a-number")`, but the returned error is the propagated
`strconv.ParseFloat` error, not an `UnsupportedArg` error, and its
message does not begin with `"presto: unsupported arg type: "`. -/
theorem serial_numeric_error_counterexample :
    Serial (.numeric "not-a-number") =
      .error (.numericParse "not-a-number" .invalidSyntax) ∧
    SerialError.message (.numericParse "not-a-number" .invalidSyntax) =
      "strconv.ParseFloat: parsing \"not-a-number\": invalid syntax" ∧
    ("presto: unsupported arg type: ".data.isPrefixOf
      (SerialError.message (.numericParse "not-a-number" .invalidSyntax)).data) = false := by
  refine ⟨rfl, ?_, by decide⟩
  apply String.ext
  decide

/-- C2 (amended): every value `Serial` rejects other than a non-parsing
`Numeric` string fails with a single `UnsupportedArg` error whose
message is exactly `"presto: unsupported arg type: "` followed by the
rejected kind's name; a `Numeric` string that does not parse fails with
the propagated `strconv.ParseFloat` error, which is not an
`UnsupportedArg` error. -/
theorem serial_rejections (t : String) (n : Nat) (s : String) (k : NumErrorKind) :
    (SerialError.unsupported t).message = "presto: unsupported arg type: " ++ t ∧
    Serial .goNil = .error (.unsupported "<nil>") ∧
    Serial (.byteVal n) = .error (.unsupported "byte/uint8") ∧
    Serial .f32 = .error (.unsupported "float32") ∧
    Serial .f64 = .error (.unsupported "float64") ∧
    Serial .bytesVal = .error (.unsupported "[]byte") ∧
    Serial .timeVal = .error (.unsupported "time.Time") ∧
    Serial .durationVal = .error (.unsupported "time.Duration") ∧
    Serial .rawJSON = .error (.unsupported "json.RawMessage") ∧
    Serial .mapVal = .error (.unsupported "map") ∧
    Serial .sliceNil = .error (.unsupported "[]<nil>") ∧
    Serial (.other t) = .error (.unsupported t) ∧
    (parseFloat64Check s = some k →
      Serial (.numeric s) = .error (.numericParse s k) ∧
      SerialError.numericParse s k ≠ .unsupported t) := by
  refine ⟨rfl, rfl, rfl, rfl, rfl, rfl, rfl, rfl, rfl, rfl, rfl, rfl, ?_⟩
  intro hk
  refine ⟨?_, fun hcontra => SerialError.noConfusion hcontra⟩
  show (match parseFloat64Check s with
    | some k => Except.error (SerialError.numericParse s k)
    | none => Except.ok s) = _
  rw [hk]

/-- Closed instance of the amended C2: the unsupported-kind message for
`float32` and the propagated parse error for a bad `Numeric`. -/
theorem serial_rejections_witness :
    Serial (.numeric "abc") = .error (.numericParse "abc" .invalidSyntax) ∧
    SerialError.numericParse "abc" .invalidSyntax ≠ .unsupported "float32" :=
  (serial_rejections "float32" 0 "abc" .invalidSyntax).2.2.2.2.2.2.2.2.2.2.2.2 rfl

/-- A scalar conversion of a non-null value never returns null: every
branch either errors or produces a non-null constructor (or passes the
non-null input through). -/
theorem scalarConvert_nonNull (t : String) (v : Value) (r : Value)
    (hv : v ≠ .null) (h : scalarConvert t v = .ok r) : r ≠ .null := by
  cases v with
  | null => exact absurd rfl hv
  | boolV b => simp only [scalarConvert] at h; split_ifs at h <;> cases h <;> simp
  | numV s => simp only [scalarConvert] at h; split_ifs at h <;> cases h <;> simp
  | strV s => simp only [scalarConvert] at h; split_ifs at h <;> cases h <;> simp
  | seqV vs => simp only [scalarConvert] at h; split_ifs at h <;> cases h <;> simp
  | objV es => simp only [scalarConvert] at h; split_ifs at h <;> cases h <;> simp

/-- No converter maps a non-null wire value to a null result: scalars by
`scalarConvert_nonNull`, rows because a non-null conversion result is an
object. -/
theorem applyConverter_nonNull (c : Converter) (v : Value) (r : Value)
    (hv : v ≠ .null) (h : applyConverter c v = .ok r) : r ≠ .null := by
  cases c with
  | scalar t =>
    simp only [applyConverter] at h
    exact scalarConvert_nonNull t v r hv h
  | row fields subs =>
    cases v with
    | null => exact absurd rfl hv
    | seqV vs =>
      simp only [applyConverter] at h
      by_cases hlen : vs.length ≠ fields.length
      · rw [if_pos hlen] at h
        exact absurd h (by simp)
      · rw [if_neg hlen] at h
        cases hloop : rowLoop fields subs vs with
        | error e => rw [hloop] at h; exact absurd h (by simp)
        | ok entries =>
          rw [hloop] at h
          cases h
          simp
    | boolV b => simp only [applyConverter] at h; exact absurd h (by simp)
    | numV s => simp only [applyConverter] at h; exact absurd h (by simp)
    | strV s => simp only [applyConverter] at h; exact absurd h (by simp)
    | objV es => simp only [applyConverter] at h; exact absurd h (by simp)

/-- `parseFieldNames` succeeds with one field name per literal
argument. -/
theorem parseFieldNames_length (las : List (String ⊕ String)) (fields : List String)
    (h : parseFieldNames las = .ok fields) : fields.length = las.length := by
  induction las generalizing fields with
  | nil =>
    simp only [parseFieldNames] at h
    cases h
    rfl
  | cons a rest ih =>
    cases a with
    | inl fn =>
      simp only [parseFieldNames] at h
      cases hrest : parseFieldNames rest with
      | error e => rw [hrest] at h; exact absurd h (by simp)
      | ok fs =>
        rw [hrest] at h
        cases h
        simp [ih fs hrest]
    | inr jsonErr =>
      simp only [parseFieldNames] at h
      exact absurd h (by simp)

/-- `buildSubConverters` succeeds with one sub-converter per type
argument. -/
theorem buildSubConverters_length (tas : List (TypeSignature ⊕ String))
    (subs : List Converter) (h : buildSubConverters tas = .ok subs) :
    subs.length = tas.length := by
  induction tas generalizing subs with
  | nil =>
    simp only [buildSubConverters] at h
    cases h
    rfl
  | cons a rest ih =>
    cases a with
    | inl fts =>
      simp only [buildSubConverters] at h
      cases hfts : newComplexConverter fts with
      | error e => rw [hfts] at h; exact absurd h (by simp)
      | ok conv =>
        rw [hfts] at h
        cases hrest : buildSubConverters rest with
        | error e => rw [hrest] at h; exact absurd h (by simp)
        | ok convs =>
          rw [hrest] at h
          cases h
          simp [ih convs hrest]
    | inr jsonErr =>
      simp only [buildSubConverters] at h
      exact absurd h (by simp)

/-- Unfolding of the source's field loop at a non-null head element: the
sub-converter at the head index is consulted. -/
theorem rowLoop_cons_nonNull (f : String) (fs : List String) (c : Converter)
    (cs : List Converter) (v : Value) (vs' : List Value) (hv : v ≠ .null) :
    rowLoop (f :: fs) (c :: cs) (v :: vs') =
      (match applyConverter c v with
        | .error (.msg e) =>
          .error (.msg ("presto: converting sub property of row: " ++ e))
        | .error .indexPanic => .error .indexPanic
        | .ok sub =>
          match rowLoop fs cs vs' with
          | .error e => .error e
          | .ok tail =>
            match sub with
            | .null => .ok tail
            | sub' => .ok ((f, sub') :: tail)) := by
  cases v with
  | null => exact absurd rfl hv
  | boolV b => rfl
  | numV s => rfl
  | strV s => rfl
  | seqV ws => rfl
  | objV es => rfl

/-- Unfolding of the claim's parallel description at a non-null head
element. -/
theorem specRowEntries_cons_nonNull (f : String) (c : Converter) (v : Value)
    (rest : List (String × Converter × Value)) (hv : v ≠ .null) :
    specRowEntries ((f, c, v) :: rest) =
      (match applyConverter c v with
        | .error (.msg e) =>
          .error (.msg ("presto: converting sub property of row: " ++ e))
        | .error .indexPanic => .error .indexPanic
        | .ok sub =>
          match specRowEntries rest with
          | .error e => .error e
          | .ok tail => .ok ((f, sub) :: tail)) := by
  cases v with
  | null => exact absurd rfl hv
  | boolV b => rfl
  | numV s => rfl
  | strV s => rfl
  | seqV ws => rfl
  | objV es => rfl

/-- With matching lengths, the index-walking field loop of the source
computes exactly the claim's parallel description of the row mapping
(using that no sub-converter turns a non-null element into null). -/
theorem rowLoop_eq_spec (fields : List String) (subs : List Converter)
    (vs : List Value) (hlen1 : subs.length = fields.length)
    (hlen2 : vs.length = fields.length) :
    rowLoop fields subs vs = specRowEntries (fields.zip (subs.zip vs)) := by
  induction fields generalizing subs vs with
  | nil => simp [rowLoop, specRowEntries]
  | cons f fs ih =>
    cases subs with
    | nil => exact absurd hlen1 (by simp)
    | cons c cs =>
      cases vs with
      | nil => exact absurd hlen2 (by simp)
      | cons v vs' =>
        have h1 : cs.length = fs.length := by simpa using hlen1
        have h2 : vs'.length = fs.length := by simpa using hlen2
        rw [List.zip_cons_cons, List.zip_cons_cons]
        by_cases hv : v = .null
        · subst hv
          show rowLoop fs ((c :: cs).drop 1) vs' = _
          rw [specRowEntries, List.drop_one, List.tail_cons]
          exact ih cs vs' h1 h2
        · rw [rowLoop_cons_nonNull f fs c cs v vs' hv,
            specRowEntries_cons_nonNull f c v _ hv, ih cs vs' h1 h2]
          cases happ : applyConverter c v with
          | error e => cases e <;> rfl
          | ok sub =>
            have hnn := applyConverter_nonNull c v sub hv happ
            cases hrec : specRowEntries (fs.zip (cs.zip vs')) with
            | error e => rfl
            | ok tail =>
              cases sub with
              | null => exact absurd rfl hnn
              | boolV b => rfl
              | numV s => rfl
              | strV s => rfl
              | seqV ws => rfl
              | objV es => rfl

/-- C4: a row converter built from a row signature (with the documented
invariant that the counts of literal and type arguments agree) converts
null to null without consulting any sub-converter, rejects non-sequence
values and sequences of the wrong length with an error, and converts a
sequence of exactly N elements into the ordered mapping that binds each
field whose wire element is non-null to its sub-converter's result and
omits null elements, any sub-converter error failing the whole
conversion. -/
theorem row_converter_claim :
    (∀ (fields : List String) (subs : List Converter),
      applyConverter (.row fields subs) .null = .ok .null) ∧
    (∀ (fields : List String) (subs : List Converter) (v : Value),
      v ≠ .null → v.isSeq = false →
      applyConverter (.row fields subs) v =
        .error (.msg ("presto: row converter needs []any and received " ++
          v.goTypeName))) ∧
    (∀ (fields : List String) (subs : List Converter) (vs : List Value),
      vs.length ≠ fields.length →
      applyConverter (.row fields subs) (.seqV vs) =
        .error (.msg ("presto: row converter has wrong number of elements: " ++
          natToDecimal vs.length ++ ", expected: " ++ natToDecimal fields.length))) ∧
    (∀ (ts : TypeSignature) (fields : List String) (subs : List Converter)
        (vs : List Value),
      newComplexConverter ts = .ok (.row fields subs) →
      ts.typeArguments.length = ts.literalArguments.length →
      vs.length = fields.length →
      applyConverter (.row fields subs) (.seqV vs) =
        (specRowEntries (fields.zip (subs.zip vs))).map .objV) := by
  refine ⟨fun _ _ => rfl, ?_, ?_, ?_⟩
  · intro fields subs v hnull hseq
    cases v with
    | null => exact absurd rfl hnull
    | boolV b => rfl
    | numV s => rfl
    | strV s => rfl
    | seqV vs => exact absurd hseq (by simp [Value.isSeq])
    | objV es => rfl
  · intro fields subs vs hlen
    simp only [applyConverter]
    rw [if_pos hlen]
  · intro ts fields subs vs hbuild hcounts hlen
    obtain ⟨raw, tas, las⟩ := ts
    simp only [newComplexConverter] at hbuild
    by_cases hraw : raw ≠ "row"
    · rw [if_pos hraw] at hbuild
      exact absurd hbuild (by simp)
    · rw [if_neg hraw] at hbuild
      cases hlas : parseFieldNames las with
      | error e => rw [hlas] at hbuild; exact absurd hbuild (by simp)
      | ok fields' =>
        rw [hlas] at hbuild
        cases htas : buildSubConverters tas with
        | error e => rw [htas] at hbuild; exact absurd hbuild (by simp)
        | ok subs' =>
          rw [htas] at hbuild
          cases hbuild
          have hflen : fields.length = las.length :=
            parseFieldNames_length las fields hlas
          have hslen : subs.length = tas.length :=
            buildSubConverters_length tas subs htas
          simp only [TypeSignature.typeArguments, TypeSignature.literalArguments]
            at hcounts
          have hsf : subs.length = fields.length := by omega
          simp only [applyConverter]
          rw [if_neg (by omega)]
          rw [rowLoop_eq_spec fields subs vs hsf hlen]
          cases specRowEntries (fields.zip (subs.zip vs)) <;> rfl

/-- Closed instance of C4: the two-field row signature
`row(a varchar, b bigint)` on the wire value `["x", null]` produces the
mapping with the single entry `a ↦ "x"`. -/
theorem row_converter_claim_witness :
    applyConverter (.row ["a", "b"] [.scalar "varchar", .scalar "bigint"])
      (.seqV [.strV "x", .null]) = .ok (.objV [("a", .strV "x")]) := by
  have h := row_converter_claim.2.2.2
    (.mk "row" [.inl (.mk "varchar" [] []), .inl (.mk "bigint" [] [])]
      [.inl "a", .inl "b"])
    ["a", "b"] [.scalar "varchar", .scalar "bigint"]
    [.strV "x", .null] rfl rfl rfl
  exact h.trans rfl

/-- Unfolding of the field loop at a non-null head element with the
sub-converter list exhausted: the out-of-bounds index. -/
theorem rowLoop_cons_nonNull' (f : String) (fs : List String) (v : Value)
    (vs' : List Value) (hv : v ≠ .null) :
    rowLoop (f :: fs) [] (v :: vs') = .error .indexPanic := by
  cases v with
  | null => exact absurd rfl hv
  | boolV b => rfl
  | numV s => rfl
  | strV s => rfl
  | seqV ws => rfl
  | objV es => rfl

/-- The field loop dereferences the sub-converter list out of bounds —
modelled as `indexPanic` — whenever the field names outnumber the
sub-converters, the wire sequence matches the field count, its elements
are non-null, and the conversions that exist succeed. -/
theorem rowLoop_panic (fields : List String) (subs : List Converter)
    (vs : List Value) (h1 : subs.length < fields.length)
    (h2 : vs.length = fields.length) (h3 : ∀ v ∈ vs, v ≠ .null)
    (h4 : ∀ p ∈ subs.zip vs, ∃ r, applyConverter p.1 p.2 = .ok r) :
    rowLoop fields subs vs = .error .indexPanic := by
  induction subs generalizing fields vs with
  | nil =>
    cases fields with
    | nil => exact absurd h1 (by simp)
    | cons f fs =>
      cases vs with
      | nil => exact absurd h2 (by simp)
      | cons v vs' =>
        rw [rowLoop_cons_nonNull' f fs v vs' (h3 v (by simp))]
  | cons c cs ih =>
    cases fields with
    | nil => exact absurd h1 (by simp)
    | cons f fs =>
      cases vs with
      | nil => exact absurd h2 (by simp)
      | cons v vs' =>
        obtain ⟨r, hr⟩ := h4 (c, v) (by simp)
        rw [rowLoop_cons_nonNull f fs c cs v vs' (h3 v (by simp)), hr]
        rw [ih fs vs' (by simpa using h1) (by simpa using h2)
          (fun u hu => h3 u (by simp [hu]))
          (fun p hp => h4 p (by rw [List.zip_cons_cons]; exact List.mem_cons_of_mem _ hp))]

/-- C9: `newComplexConverter` builds the field names from the literal
arguments and the sub-converters from the type arguments with no check
that the counts agree, and `rowConverter.ConvertValue` validates the
wire length only against the field count; when the literal arguments
outnumber the type arguments and a matching-length wire sequence has
non-null elements (the existing conversions succeeding), the
sub-converter access is out of bounds. -/
theorem row_signature_mismatch (names : List String) (rawTypes : List String)
    (hnr : ∀ r ∈ rawTypes, r ≠ "row") :
    newComplexConverter
        (.mk "row" (rawTypes.map (fun r => .inl (.mk r [] [])))
          (names.map .inl)) =
      .ok (.row names (rawTypes.map .scalar)) ∧
    (∀ (fields : List String) (subs : List Converter) (vs : List Value),
      subs.length < fields.length → vs.length = fields.length →
      (∀ v ∈ vs, v ≠ .null) →
      (∀ p ∈ subs.zip vs, ∃ r, applyConverter p.1 p.2 = .ok r) →
      applyConverter (.row fields subs) (.seqV vs) = .error .indexPanic) := by
  constructor
  · have hfn : parseFieldNames (names.map .inl) = .ok names := by
      induction names with
      | nil => rfl
      | cons n rest ih => simp only [List.map_cons, parseFieldNames, ih]
    have hbs : buildSubConverters (rawTypes.map (fun r => .inl (.mk r [] []))) =
        .ok (rawTypes.map .scalar) := by
      induction rawTypes with
      | nil => rfl
      | cons r rest ih =>
        have hr : newComplexConverter (.mk r [] []) = .ok (.scalar r) := by
          simp only [newComplexConverter]
          rw [if_pos (hnr r (by simp))]
        simp only [List.map_cons, buildSubConverters, hr,
          ih (fun r' hr' => hnr r' (by simp [hr']))]
    simp only [newComplexConverter]
    rw [if_neg (by simp), hfn, hbs]
  · intro fields subs vs h1 h2 h3 h4
    simp only [applyConverter]
    rw [if_neg (by omega), rowLoop_panic fields subs vs h1 h2 h3 h4]

/-- Closed instance of C9: the signature `row` with one literal argument
`"a"` and no type arguments builds successfully, and converting the
matching one-element non-null wire sequence panics on the sub-converter
index. -/
theorem row_signature_mismatch_witness :
    newComplexConverter (.mk "row" [] [.inl "a"]) = .ok (.row ["a"] []) ∧
    applyConverter (.row ["a"] []) (.seqV [.boolV true]) =
      .error .indexPanic := by
  have h := row_signature_mismatch ["a"] [] (by simp)
  refine ⟨by simpa using h.1, ?_⟩
  exact h.2 ["a"] [] [.boolV true] (by simp) (by simp)
    (by intro v hv; simp at hv; subst hv; simp)
    (by intro p hp; simp at hp)

/-- A successful `decDigits1` starts with a digit. -/
theorem decDigits1_head (cs rest : List Char) (h : decDigits1 cs = some rest) :
    ∃ d t, cs = d :: t ∧ isDigitChar d = true := by
  cases cs with
  | nil => exact absurd h (by simp [decDigits1])
  | cons c t =>
    by_cases hd : isDigitChar c = true
    · exact ⟨c, t, rfl, hd⟩
    · rw [decDigits1, if_neg hd] at h
      exact absurd h (by simp)

/-- A digit character is not an underscore. -/
theorem digit_ne_uscore (c : Char) (h : isDigitChar c = true) : c ≠ '_' := by
  intro hc
  subst hc
  exact absurd h (by decide)

/-- A digit character is not a radix point. -/
theorem digit_ne_dot (c : Char) (h : isDigitChar c = true) : c ≠ '.' := by
  intro hc
  subst hc
  exact absurd h (by decide)

/-- The case-folded code of a digit stays below 64, hence differs from
every ASCII letter of interest. -/
theorem digit_lower_lt (c : Char) (h : isDigitChar c = true) : lowerChar c < 64 := by
  have h64 : c.toNat < 2 ^ 6 := by
    simp only [isDigitChar, Bool.and_eq_true, decide_eq_true_eq] at h
    omega
  have h32 : 32 < 2 ^ 6 := by norm_num
  simpa [lowerChar] using Nat.or_lt_two_pow h64 h32

/-- The mantissa loop walks through a maximal run of digits, setting the
digit flag and preserving the point and underscore flags. -/
theorem mantLoop_digits (cs : List Char) (rest : List Char)
    (h : decDigits1 cs = some rest) :
    ∀ st : MantScan, ∃ st' : MantScan,
      mantLoop 10 false st cs = mantLoop 10 false st' rest ∧
      st'.sawdig = true ∧ st'.sawdot = st.sawdot ∧ st'.us = st.us := by
  induction cs generalizing rest with
  | nil => exact absurd h (by simp [decDigits1])
  | cons c t ih =>
    intro st
    by_cases hd : isDigitChar c = true
    · have hstep : mantLoop 10 false st (c :: t) =
          mantLoop 10 false
            { st with
              mant := st.mant * 10 + digitVal c
              frac := if st.sawdot then st.frac + 1 else st.frac
              sawdig := true } t := by
        rw [mantLoop, if_neg (digit_ne_uscore c hd), if_neg (digit_ne_dot c hd),
          if_pos (by simp [hd])]
      rw [decDigits1, if_pos hd] at h
      cases ht : decDigits1 t with
      | some r =>
        rw [ht] at h
        injection h with h'
        subst h'
        obtain ⟨st', h1, h2, h3, h4⟩ := ih r ht
          { st with
            mant := st.mant * 10 + digitVal c
            frac := if st.sawdot then st.frac + 1 else st.frac
            sawdig := true }
        exact ⟨st', hstep.trans h1, h2, h3, h4⟩
      | none =>
        rw [ht] at h
        injection h with h'
        subst h'
        exact ⟨_, hstep, rfl, rfl, rfl⟩
    · rw [decDigits1, if_neg hd] at h
      exact absurd h (by simp)

/-- The mantissa loop walks through a possibly empty run of digits,
preserving the point and underscore flags and the digit flag once
set. -/
theorem mantLoop_digits0 (cs : List Char) :
    ∀ st : MantScan, ∃ st' : MantScan,
      mantLoop 10 false st cs = mantLoop 10 false st' (decDigits0 cs) ∧
      st'.sawdot = st.sawdot ∧ st'.us = st.us ∧
      (st.sawdig = true → st'.sawdig = true) := by
  induction cs with
  | nil => exact fun st => ⟨st, rfl, rfl, rfl, fun h => h⟩
  | cons c t ih =>
    intro st
    by_cases hd : isDigitChar c = true
    · have hstep : mantLoop 10 false st (c :: t) =
          mantLoop 10 false
            { st with
              mant := st.mant * 10 + digitVal c
              frac := if st.sawdot then st.frac + 1 else st.frac
              sawdig := true } t := by
        rw [mantLoop, if_neg (digit_ne_uscore c hd), if_neg (digit_ne_dot c hd),
          if_pos (by simp [hd])]
      obtain ⟨st', h1, h2, h3, h4⟩ := ih
        { st with
          mant := st.mant * 10 + digitVal c
          frac := if st.sawdot then st.frac + 1 else st.frac
          sawdig := true }
      refine ⟨st', ?_, h2, h3, fun _ => h4 rfl⟩
      rw [hstep, h1, show decDigits0 (c :: t) = decDigits0 t from by
        rw [decDigits0, if_pos hd]]
    · refine ⟨st, ?_, rfl, rfl, fun h => h⟩
      rw [decDigits0, if_neg hd]

/-- Shape of a remainder accepted by the spec's exponent rule: empty or
headed by `e`/`E`. -/
theorem specExp_shape (rest : List Char) (h : specExp rest = true) :
    rest = [] ∨ (∃ t, rest = 'e' :: t) ∨ (∃ t, rest = 'E' :: t) := by
  cases rest with
  | nil => exact Or.inl rfl
  | cons e t =>
    by_cases he : e = 'e' ∨ e = 'E'
    · rcases he with rfl | rfl
      · exact Or.inr (Or.inl ⟨t, rfl⟩)
      · exact Or.inr (Or.inr ⟨t, rfl⟩)
    · simp only [specExp] at h
      rw [if_neg (by simpa using he)] at h
      exact absurd h (by simp)

/-- The mantissa loop does not move on an empty or `e`/`E`-headed
remainder. -/
theorem mantLoop_stop (st : MantScan) (rest : List Char)
    (h : rest = [] ∨ (∃ t, rest = 'e' :: t) ∨ (∃ t, rest = 'E' :: t)) :
    mantLoop 10 false st rest = (st, rest) := by
  rcases h with rfl | ⟨t, rfl⟩ | ⟨t, rfl⟩ <;> rfl

/-- A spec-accepted mantissa is scanned by the source's mantissa loop to
exactly the same remainder, with a digit seen and no underscore. -/
theorem specMant_mantLoop (cs rest : List Char) (hm : specMant cs = some rest)
    (hshape : rest = [] ∨ (∃ t, rest = 'e' :: t) ∨ (∃ t, rest = 'E' :: t)) :
    ∃ st' : MantScan,
      mantLoop 10 false ⟨0, 0, false, false, false⟩ cs = (st', rest) ∧
      st'.sawdig = true ∧ st'.us = false := by
  cases hd1 : decDigits1 cs with
  | some rest0 =>
    obtain ⟨st1, hml, hdig1, hdot1, hus1⟩ :=
      mantLoop_digits cs rest0 hd1 ⟨0, 0, false, false, false⟩
    cases rest0 with
    | nil =>
      simp only [specMant, hd1, Option.some.injEq] at hm
      subst hm
      exact ⟨st1, by rw [hml]; rfl, hdig1, hus1⟩
    | cons c rest' =>
      by_cases hc : c = '.'
      · subst hc
        simp only [specMant, hd1, if_pos, Option.some.injEq] at hm
        subst hm
        have hdot : mantLoop 10 false st1 ('.' :: rest') =
            mantLoop 10 false { st1 with sawdot := true } rest' := by
          rw [mantLoop, if_neg (by decide), if_pos rfl, if_neg (by simp [hdot1])]
        obtain ⟨st2, h1, h2, h3, h4⟩ := mantLoop_digits0 rest' { st1 with sawdot := true }
        refine ⟨st2, ?_, h4 hdig1, h3.trans hus1⟩
        rw [hml, hdot, h1, mantLoop_stop st2 _ hshape]
      · simp only [specMant, hd1, if_neg hc, Option.some.injEq] at hm
        subst hm
        exact ⟨st1, by rw [hml, mantLoop_stop st1 _ hshape], hdig1, hus1⟩
  | none =>
    cases cs with
    | nil => simp [specMant, hd1] at hm
    | cons c rest' =>
      by_cases hc : c = '.'
      · subst hc
        rw [specMant, hd1, if_pos rfl] at hm
        obtain ⟨st1, h1, h2, h3, h4⟩ :=
          mantLoop_digits rest' rest hm ⟨0, 0, true, false, false⟩
        refine ⟨st1, ?_, h2, h4⟩
        have hdot : mantLoop 10 false ⟨0, 0, false, false, false⟩ ('.' :: rest') =
            mantLoop 10 false ⟨0, 0, true, false, false⟩ rest' := rfl
        rw [hdot, h1, mantLoop_stop st1 _ hshape]
      · simp [specMant, hd1, if_neg hc] at hm

/-- The exponent loop consumes a non-empty all-digit tail completely,
leaving the underscore flag untouched. -/
theorem expLoop_digits (cs : List Char) (h : decDigits1 cs = some []) :
    ∀ (e : Nat) (u : Bool), ∃ e', expLoop (e, u) cs = ((e', u), []) := by
  induction cs with
  | nil => exact absurd h (by simp [decDigits1])
  | cons c t ih =>
    intro e u
    by_cases hd : isDigitChar c = true
    · have hstep : expLoop (e, u) (c :: t) = expLoop (e * 10 + digitVal c, u) t := by
        rw [expLoop, if_neg (digit_ne_uscore c hd), if_pos hd]
      rw [decDigits1, if_pos hd] at h
      cases ht : decDigits1 t with
      | some r =>
        rw [ht] at h
        injection h with h'
        subst h'
        obtain ⟨e', hE⟩ := ih ht (e * 10 + digitVal c) u
        exact ⟨e', hstep.trans hE⟩
      | none =>
        rw [ht] at h
        injection h with h'
        subst h'
        exact ⟨e * 10 + digitVal c, hstep⟩
    · rw [decDigits1, if_neg hd] at h
      exact absurd h (by simp)

/-- A spec-accepted number never looks like a hexadecimal float: the
character after a leading `0` is a digit, a point, or an exponent
letter, never `x`/`X`. -/
theorem spec_hexDetect_false (cs rest : List Char) (hm : specMant cs = some rest)
    (he : specExp rest = true) : hexDetect cs = false := by
  cases cs with
  | nil => rfl
  | cons c0 t0 =>
    cases t0 with
    | nil => rfl
    | cons c1 t1 =>
      cases t1 with
      | nil => rfl
      | cons c2 t2 =>
        simp only [hexDetect]
        rw [Bool.and_eq_false_iff]
        by_cases h0 : c0 = '0'
        · right
          apply decide_eq_false
          cases hd1 : decDigits1 (c0 :: c1 :: c2 :: t2) with
          | some rest0 =>
            rw [decDigits1] at hd1
            by_cases hd0 : isDigitChar c0 = true
            · rw [if_pos hd0] at hd1
              cases hd2 : decDigits1 (c1 :: c2 :: t2) with
              | some r2 =>
                obtain ⟨d, t, hdt, hdig⟩ := decDigits1_head _ _ hd2
                injection hdt with hd' ht'
                subst hd'
                have := digit_lower_lt c1 hdig
                omega
              | none =>
                have hd1' : decDigits1 (c0 :: c1 :: c2 :: t2) =
                    some (c1 :: c2 :: t2) := by
                  rw [decDigits1, if_pos hd0, hd2]
                by_cases hc1 : c1 = '.'
                · subst hc1
                  decide
                · simp only [specMant, hd1', if_neg hc1, Option.some.injEq] at hm
                  subst hm
                  rcases specExp_shape _ he with h | ⟨t, ht⟩ | ⟨t, ht⟩
                  · exact absurd h (by simp)
                  · injection ht with h1 _
                    subst h1
                    decide
                  · injection ht with h1 _
                    subst h1
                    decide
            · rw [if_neg hd0] at hd1
              exact absurd hd1 (by simp)
          | none =>
            rw [specMant, hd1] at hm
            by_cases hc0 : c0 = '.'
            · exact absurd (h0 ▸ hc0) (by decide)
            · rw [if_neg hc0] at hm
              exact absurd hm (by simp)
        · exact Or.inl (decide_eq_false h0)

/-- A spec-accepted number never matches the `special` Inf/NaN scan:
after an optional sign the first character is a digit or a point. -/
theorem spec_special_none (s : String) (h : isDecimalOrScientific s = true) :
    specialConsumed s.data = none := by
  have hmant : ∃ rest, specMant (stripSign s.data) = some rest := by
    unfold isDecimalOrScientific at h
    cases hm : specMant (stripSign s.data) with
    | none => rw [hm] at h; exact absurd h (by simp)
    | some rest => exact ⟨rest, rfl⟩
  obtain ⟨rest, hm⟩ := hmant
  have hhead : ∀ cs rest', specMant cs = some rest' →
      ∃ d t, cs = d :: t ∧ (isDigitChar d = true ∨ d = '.') := by
    intro cs rest' hm'
    cases hd1 : decDigits1 cs with
    | some rest0 =>
      obtain ⟨d, t, hdt, hdig⟩ := decDigits1_head _ _ hd1
      exact ⟨d, t, hdt, Or.inl hdig⟩
    | none =>
      cases cs with
      | nil => simp [specMant, hd1] at hm'
      | cons c t =>
        by_cases hc : c = '.'
        · exact ⟨c, t, rfl, Or.inr hc⟩
        · rw [specMant, hd1, if_neg hc] at hm'
          exact absurd hm' (by simp)
  cases hs : s.data with
  | nil => rw [hs] at hm; simp [stripSign, specMant, decDigits1] at hm
  | cons c t =>
    rw [hs] at hm
    simp only [specialConsumed]
    by_cases hsign : c = '+' || c = '-'
    · have hstrip : stripSign (c :: t) = t := by rw [stripSign, if_pos hsign]
      rw [hstrip] at hm
      obtain ⟨d, t', hdt, hclass⟩ := hhead t rest hm
      subst hdt
      rw [if_pos hsign]
      have hne : ¬lowerChar d = ('i').toNat := by
        rw [show ('i').toNat = 105 from rfl]
        rcases hclass with hdig | hdot
        · have := digit_lower_lt d hdig
          omega
        · subst hdot
          decide
      rw [ciPrefixLen, if_neg hne]
      decide
    · have hstrip : stripSign (c :: t) = c :: t := by rw [stripSign, if_neg hsign]
      rw [hstrip] at hm
      obtain ⟨d, t', hdt, hclass⟩ := hhead (c :: t) rest hm
      injection hdt with h1 h2
      subst h1
      rw [if_neg hsign]
      have hlow : lowerChar c ≠ 105 ∧ lowerChar c ≠ 110 := by
        rcases hclass with hdig | hdot
        · have := digit_lower_lt c hdig
          omega
        · subst hdot
          exact ⟨by decide, by decide⟩
      rw [if_neg hlow.1, if_neg hlow.2]

/-- The source's exponent part accepts every remainder the spec's
exponent rule accepts, yielding a decimal parse. -/
theorem readFloatExp_spec (s : List Char) (st : MantScan) (rest : List Char)
    (hus : st.us = false) (he : specExp rest = true) :
    ∃ fp : FloatParse, readFloatExp s st false rest = some fp ∧ fp.hex = false := by
  cases rest with
  | nil =>
    refine ⟨⟨st.mant, -(st.frac : Int), false⟩, ?_, rfl⟩
    simp [readFloatExp, hus]
  | cons e rest1 =>
    have hee : e = 'e' ∨ e = 'E' := by
      rcases specExp_shape _ he with h | ⟨t, ht⟩ | ⟨t, ht⟩
      · exact absurd h (by simp)
      · injection ht with h1 _
        exact Or.inl h1
      · injection ht with h1 _
        exact Or.inr h1
    cases rest1 with
    | nil =>
      rcases hee with rfl | rfl
      · exact absurd he (by decide)
      · exact absurd he (by decide)
    | cons c more =>
      by_cases hsgn : c = '+' || c = '-'
      · have hdd : decDigits1 more = some [] := by
          cases hdd' : decDigits1 more with
          | none => rcases hee with rfl | rfl <;> simp [specExp, hsgn, hdd'] at he
          | some r =>
            cases r with
            | nil => rfl
            | cons a b => rcases hee with rfl | rfl <;> simp [specExp, hsgn, hdd'] at he
        obtain ⟨d, t, hmt, hdig⟩ := decDigits1_head more [] hdd
        subst hmt
        obtain ⟨e', hE⟩ := expLoop_digits _ hdd 0 false
        rcases (by simpa using hsgn : c = '+' ∨ c = '-') with rfl | rfl
        · rcases hee with rfl | rfl
          · refine ⟨⟨st.mant, 1 * (e' : Int) - (st.frac : Int), false⟩, ?_, rfl⟩
            simp [readFloatExp, hE, hdig, hus, show lowerChar 'e' = 101 from rfl]
          · refine ⟨⟨st.mant, 1 * (e' : Int) - (st.frac : Int), false⟩, ?_, rfl⟩
            simp [readFloatExp, hE, hdig, hus, show lowerChar 'E' = 101 from rfl]
        · rcases hee with rfl | rfl
          · refine ⟨⟨st.mant, -1 * (e' : Int) - (st.frac : Int), false⟩, ?_, rfl⟩
            simp [readFloatExp, hE, hdig, hus, show lowerChar 'e' = 101 from rfl]
          · refine ⟨⟨st.mant, -1 * (e' : Int) - (st.frac : Int), false⟩, ?_, rfl⟩
            simp [readFloatExp, hE, hdig, hus, show lowerChar 'E' = 101 from rfl]
      · have hdd : decDigits1 (c :: more) = some [] := by
          cases hdd' : decDigits1 (c :: more) with
          | none => rcases hee with rfl | rfl <;> simp [specExp, hsgn, hdd'] at he
          | some r =>
            cases r with
            | nil => rfl
            | cons a b => rcases hee with rfl | rfl <;> simp [specExp, hsgn, hdd'] at he
        have hdigc : isDigitChar c = true := by
          obtain ⟨d, t, hmt, hdig⟩ := decDigits1_head _ [] hdd
          injection hmt with h1 _
          subst h1
          exact hdig
        have hc1 : c ≠ '+' := by
          intro hcc
          subst hcc
          exact absurd hdigc (by decide)
        have hc2 : c ≠ '-' := by
          intro hcc
          subst hcc
          exact absurd hdigc (by decide)
        obtain ⟨e', hE⟩ := expLoop_digits _ hdd 0 false
        rcases hee with rfl | rfl
        · refine ⟨⟨st.mant, 1 * (e' : Int) - (st.frac : Int), false⟩, ?_, rfl⟩
          simp [readFloatExp, hE, hdigc, hus, hc1, hc2, show lowerChar 'e' = 101 from rfl]
        · refine ⟨⟨st.mant, 1 * (e' : Int) - (st.frac : Int), false⟩, ?_, rfl⟩
          simp [readFloatExp, hE, hdigc, hus, hc1, hc2, show lowerChar 'E' = 101 from rfl]

/-- Every string the spec's decimal/scientific wording accepts is
scanned successfully by the source's `readFloat`, as a decimal (never
hexadecimal) parse.  Whether Go's `ParseFloat` then accepts it depends
only on the overflow check. -/
theorem spec_accept_readFloat (s : String) (h : isDecimalOrScientific s = true) :
    ∃ fp, readFloatFull s.data = some fp ∧ fp.hex = false := by
  have hm0 : ∃ rest, specMant (stripSign s.data) = some rest ∧ specExp rest = true := by
    unfold isDecimalOrScientific at h
    cases hm : specMant (stripSign s.data) with
    | none => rw [hm] at h; exact absurd h (by simp)
    | some rest => rw [hm] at h; exact ⟨rest, rfl, h⟩
  obtain ⟨rest, hm, he⟩ := hm0
  have hshape := specExp_shape rest he
  have hhx : hexDetect (stripSign s.data) = false := spec_hexDetect_false _ _ hm he
  obtain ⟨st', hml, hdig, hus⟩ := specMant_mantLoop _ _ hm hshape
  obtain ⟨fp, hexp, hfp⟩ := readFloatExp_spec s.data st' rest hus he
  refine ⟨fp, ?_, hfp⟩
  simp only [readFloatFull, hhx, Bool.false_eq_true, if_false]
  rw [hml]
  simp only [hdig]
  simpa using hexp

/-- Counterexample to C8 as stated: `Serial(Numeric("NaN"))` succeeds
and returns the string unchanged, although `NaN` is not a decimal or
scientific-notation floating-point number. -/
theorem serial_numeric_nan_counterexample :
    Serial (.numeric "NaN") = .ok "NaN" ∧
    isDecimalOrScientific "NaN" = false :=
  ⟨rfl, rfl⟩

/-- C8 (amended): `Serial(Numeric(s))` succeeds and returns `s`
unchanged exactly when Go's `ParseFloat` accepts `s`, and otherwise
returns the parse error and no literal; every decimal or
scientific-notation number is scanned successfully, and is then accepted
or rejected purely by the `float64` overflow check (`ParseFloat` also
accepts case-insensitive `Inf`/`Infinity`/`NaN` spellings, hexadecimal
floats, and digit-separating underscores, which the spec wording does
not mention). -/
theorem serial_numeric_amended (s : String) :
    (Serial (.numeric s) = .ok s ↔ parseFloat64Check s = none) ∧
    (∀ k, parseFloat64Check s = some k →
      Serial (.numeric s) = .error (.numericParse s k)) ∧
    (isDecimalOrScientific s = true →
      ∃ fp, readFloatFull s.data = some fp ∧ fp.hex = false ∧
        (overflowFP fp = false → Serial (.numeric s) = .ok s) ∧
        (overflowFP fp = true →
          Serial (.numeric s) = .error (.numericParse s .outOfRange))) := by
  have hser : ∀ o, parseFloat64Check s = o →
      Serial (.numeric s) =
        (match o with
          | some k => .error (.numericParse s k)
          | none => .ok s) := by
    intro o ho
    show (match parseFloat64Check s with
      | some k => Except.error (SerialError.numericParse s k)
      | none => Except.ok s) = _
    rw [ho]
  refine ⟨?_, ?_, ?_⟩
  · cases hk : parseFloat64Check s with
    | none =>
      rw [hser none hk]
      exact iff_of_true rfl rfl
    | some k =>
      have := hser _ hk
      constructor
      · intro hcontra
        rw [this] at hcontra
        exact absurd hcontra (by simp)
      · intro hcontra
        exact absurd hcontra (by simp)
  · intro k hk
    exact hser _ hk
  · intro h
    obtain ⟨fp, hfp, hhex⟩ := spec_accept_readFloat s h
    have hsp := spec_special_none s h
    refine ⟨fp, hfp, hhex, ?_, ?_⟩
    · intro hov
      have hpc : parseFloat64Check s = none := by
        simp only [parseFloat64Check, hsp, hfp, hov, Bool.false_eq_true, if_false]
      exact hser none hpc
    · intro hov
      have hpc : parseFloat64Check s = some .outOfRange := by
        simp only [parseFloat64Check, hsp, hfp, hov, if_true]
      exact hser _ hpc

/-- Closed instance of the amended C8: the spec-accepted `"10"` is
returned unchanged. -/
theorem serial_numeric_amended_witness :
    Serial (.numeric "10") = .ok "10" :=
  (serial_numeric_amended "10").1.mpr rfl

end PrestoGo
